import Mathlib

set_option autoImplicit false

/-!
Shallow embedding of the core of the nest-sdk-generator repository:
the route model, the type-dependency resolver (src/analyzer/typedeps.ts),
the parameter merger (src/analyzer/params.ts), the method and controller
analyzers (src/analyzer/methods.ts, src/analyzer/controller.ts) and the
plain-flavor generator (src/generator/genmodules.ts).

JavaScript strings are Lean strings, JavaScript Map and plain-object maps
are insertion-ordered association lists, and fatal errors (process-aborting
calls and returned Error values) are the error case of Except.
-/

deriving instance DecidableEq for Except

namespace NestSdkGen

/-- Whether the first character list starts with the second. -/
def prefChars : List Char → List Char → Bool
  | _, [] => true
  | [], _ :: _ => false
  | a :: as, b :: bs => a = b && prefChars as bs

/-- Whether the first character list contains the second as a contiguous run. -/
def infChars : List Char → List Char → Bool
  | l, pat =>
    match l with
    | [] => prefChars [] pat
    | _ :: rest => prefChars l pat || infChars rest pat

/-- Substring test mirroring the JavaScript String.prototype.includes calls in the source. -/
def strIncludes (s pat : String) : Bool := infChars s.data pat.data

/-! ## Route model

The file src/analyzer/route.ts is not among the available sources; its callers
pull parseRoute (named analyzeUri at call sites), unparseRoute, resolveRouteWith
and paramsFromRoute from it.  The definitions below are modelled from the spec,
section 4.1.
-/

/-- Modelled from the spec: a route segment is either a literal string or a named
parameter (a segment written with a leading marker such as ":name"). -/
inductive RouteSegment
  | literal (s : String)
  | param (name : String)
deriving DecidableEq

/-- Modelled from the spec: a route is an ordered sequence of segments. -/
structure Route where
  segments : List RouteSegment
deriving DecidableEq

/-- Split a character list on the slash separator; mirrors splitting a template
on the / character, keeping empty segments. -/
def splitSlash : List Char → List (List Char)
  | [] => [[]]
  | c :: rest =>
    if c = '/' then [] :: splitSlash rest
    else
      match splitSlash rest with
      | [] => [[c]]
      | s :: ss => (c :: s) :: ss

/-- Join segments back with the slash separator; inverse of splitSlash. -/
def joinSlash : List (List Char) → List Char
  | [] => []
  | [s] => s
  | s :: ss => s ++ '/' :: joinSlash ss

/-- Modelled from the spec: characters whose presence in a segment makes the
template an unsupported URL feature (wildcards, regex segments,
optional-segment syntax). -/
def unsupportedRouteChar (c : Char) : Bool :=
  c = '*' || c = '?' || c = '+' || c = '(' || c = ')' || c = ':'

/-- Modelled from the spec: parse one slash-separated segment; a segment with the
leading parameter marker becomes a named parameter, anything else is literal. -/
def parseSeg (seg : List Char) : Except String RouteSegment :=
  match seg with
  | [] => .ok (.literal "")
  | c :: rest =>
    if c = ':' then
      if rest.any unsupportedRouteChar || rest.isEmpty then
        .error "unsupported route parameter segment"
      else .ok (.param (String.mk rest))
    else if (c :: rest).any unsupportedRouteChar then
      .error "unsupported route segment"
    else .ok (.literal (String.mk (c :: rest)))

/-- Parse every segment, failing on the first unsupported one. -/
def parseSegs : List (List Char) → Except String (List RouteSegment)
  | [] => .ok []
  | s :: ss =>
    match parseSeg s with
    | .error e => .error e
    | .ok r =>
      match parseSegs ss with
      | .error e => .error e
      | .ok rs => .ok (r :: rs)

/-- Names of the parameter segments, in left-to-right order. -/
def paramNames (segs : List RouteSegment) : List String :=
  segs.filterMap (fun s => match s with | .param n => some n | .literal _ => none)

/-- Modelled from the spec: parseRoute splits the template on /, parses each
segment, and rejects duplicate parameter names. -/
def parseRoute (template : String) : Except String Route :=
  match parseSegs (splitSlash template.data) with
  | .error e => .error e
  | .ok segs =>
    if (paramNames segs).Nodup then .ok ⟨segs⟩
    else .error "duplicate route parameter name"

/-- The analyzer calls the route parser under this name (see analyzeMethods). -/
def analyzeUri (template : String) : Except String Route := parseRoute template

/-- Characters of a segment in template form (parameters rendered with their marker). -/
def segChars : RouteSegment → List Char
  | .literal s => s.data
  | .param n => ':' :: n.data

/-- Modelled from the spec: unparseRoute reconstructs the original template form. -/
def unparseRoute (r : Route) : String :=
  String.mk (joinSlash (r.segments.map segChars))

/-- Modelled from the spec: parameter names of a route, in occurrence order. -/
def paramsFromRoute (r : Route) : List String := paramNames r.segments

/-- Modelled from the spec: render a route replacing every parameter segment by
the supplied function of its name.  The defensive failure case cannot occur for
model-produced routes, so the result is always ok here. -/
def resolveRouteWith (r : Route) (f : String → String) : Except String String :=
  .ok (String.mk (joinSlash (r.segments.map (fun s =>
    match s with
    | .literal l => l.data
    | .param n => (f n).data))))

/-! ## Type-dependency resolver (src/analyzer/typedeps.ts) -/

/-- One fragment of a raw type text as carved up by IMPORTED_TYPE_REGEX: either
plain text lying between matches (such text contains no complete qualifier
match) or one matched qualifier of the form import("file").ty. -/
inductive Frag
  | text (s : String)
  | imp (file ty : String)
deriving DecidableEq

/-- Rebuild the raw textual form of a fragment list, the way type.getText()
would print it. -/
def fragText : List Frag → String
  | [] => ""
  | .text s :: rest => s ++ fragText rest
  | .imp f ty :: rest => "import(\"" ++ f ++ "\")." ++ ty ++ fragText rest

/-- POSIX path.isAbsolute: the path begins with a slash. -/
def pathIsAbsolute (p : String) : Bool :=
  match p.data with
  | '/' :: _ => true
  | _ => false

/-- Type with resolved level-1 dependencies, mirroring the ResolvedTypeDeps
interface of the source. -/
structure ResolvedTypeDeps where
  rawType : String
  resolvedType : String
  relativeFilePath : String
  dependencies : List (String × List String)
  localTypes : List String
deriving DecidableEq

/-- Record one (file, type) edge in the dependency mapt: mirrors the Map
accumulation in the regex-replace callback, deduplicating type names per file
and preserving first-seen order. -/
def depsInsert : List (String × List String) → String → String → List (String × List String)
  | [], f, ty => [(f, [ty])]
  | (g, ts) :: rest, f, ty =>
    if g = f then (g, if ty ∈ ts then ts else ts ++ [ty]) :: rest
    else (g, ts) :: depsInsert rest f ty

/-- Single left-to-right pass over the fragments, exactly as the global regex
replace visits its matches: plain text is copied to the output, each qualifier
has its path normalized (absolute paths are made relative to the source root
via relPath), is recorded in the dependency map, and is replaced in the output
by the bare type name. -/
def scanFrags (relPath : String → String → String) (absoluteSrcPath : String) :
    List Frag → List (String × List String) → String →
    List (String × List String) × String
  | [], deps, out => (deps, out)
  | .text s :: rest, deps, out => scanFrags relPath absoluteSrcPath rest deps (out ++ s)
  | .imp f ty :: rest, deps, out =>
    let fp := if pathIsAbsolute f then relPath absoluteSrcPath f else f
    scanFrags relPath absoluteSrcPath rest (depsInsert deps fp ty) (out ++ ty)

/-- resolveTypeDependencies from src/analyzer/typedeps.ts.  relPath stands for
the external path.relative library call used on absolute qualifier paths.  The
three unreachable-style internal-consistency aborts of the source become error
results. -/
def resolveTypeDependencies (relPath : String → String → String) (tyFrags : List Frag)
    (relativeFilePath absoluteSrcPath : String) : Except String ResolvedTypeDeps :=
  if pathIsAbsolute relativeFilePath then
    .error "Internal error: got absolute file path in type dependencies resolver, when expecting a relative one"
  else
    if strIncludes (scanFrags relPath absoluteSrcPath tyFrags [] "").2 "import(" then
      .error "Internal error: resolved still contains an import(...) statement"
    else if (scanFrags relPath absoluteSrcPath tyFrags [] "").1.any (fun d => pathIsAbsolute d.1) then
      .error "Internal error: resolved absolute file path in type dependencies, when should have resolved a relative one"
    else
      .ok { rawType := fragText tyFrags
            resolvedType := (scanFrags relPath absoluteSrcPath tyFrags [] "").2
            relativeFilePath := relativeFilePath
            dependencies := (scanFrags relPath absoluteSrcPath tyFrags [] "").1
            localTypes := [] }

/-- Whether a character list begins with the parent-directory escape "../". -/
def startsDotDot : List Char → Bool
  | c1 :: c2 :: c3 :: _ => c1 = '.' && c2 = '.' && c3 = '/'
  | _ => false

/-- Count of leading parent-directory escapes: strips every leading "../" and
counts them, mirroring the while loop of normalizeExternalFilePath. -/
def stripParents : List Char → Nat × List Char
  | [] => (0, [])
  | [c] => (0, [c])
  | [c1, c2] => (0, [c1, c2])
  | c1 :: c2 :: c3 :: rest =>
    if c1 = '.' && c2 = '.' && c3 = '/' then
      let p := stripParents rest
      (p.1 + 1, p.2)
    else (0, c1 :: c2 :: c3 :: rest)

/-- normalizeExternalFilePath from src/analyzer/typedeps.ts: a path that does
not start with "../" is returned unchanged (zero parents stripped); otherwise
the N stripped levels become the synthetic directory _externalN. -/
def normalizeExternalFilePath (importedFilePath : String) : String :=
  let p := stripParents importedFilePath.data
  if p.1 = 0 then importedFilePath
  else "_external" ++ toString p.1 ++ "/" ++ String.mk p.2

/-- The (normalized file, type name) pairs denoted by the qualifiers of a raw
type, in occurrence order and with duplicates kept. -/
def importPairs (relPath : String → String → String) (absoluteSrcPath : String)
    (frags : List Frag) : List (String × String) :=
  frags.filterMap (fun fr => match fr with
    | .imp f ty => some (if pathIsAbsolute f then relPath absoluteSrcPath f else f, ty)
    | .text _ => none)

/-- Sum of the lengths of the value lists of a dependency map. -/
def sumLens (deps : List (String × List String)) : Nat :=
  (deps.map (fun d => d.2.length)).sum

/-- All (file, type) pairs recorded in a dependency map. -/
def pairsOf (deps : List (String × List String)) : List (String × String) :=
  deps.flatMap (fun d => d.2.map (fun t => (d.1, t)))

/-- Keys of a dependency map. -/
def depKeys (deps : List (String × List String)) : List String :=
  deps.map Prod.fst

/-! ## Source AST model

Shallow model of the ts-morph nodes the analyzer queries (spec section 6,
source AST service): decorator arguments, decorators, types, parameters,
methods and classes.  A textual type is carried as its fragment list (see
Frag) together with the isObject flag and property names the analyzer asks
the type checker for.
-/

/-- A decorator call argument: a string literal or any other expression
(carried with its printed text, used in error messages). -/
inductive DecArg
  | strLit (s : String)
  | other (text : String)
deriving DecidableEq

/-- A decorator attached to a class, method or parameter.  The called flag
models whether getCallExpression() finds a call. -/
structure DecoratorDecl where
  name : String
  called : Bool
  args : List DecArg
deriving DecidableEq

/-- A declared type as the analyzer sees it. -/
structure TsType where
  frags : List Frag
  isObject : Bool
  props : List String
deriving DecidableEq

/-- A method parameter declaration. -/
structure ParamDecl where
  name : String
  decorators : List DecoratorDecl
  type : TsType
deriving DecidableEq

/-- A method declaration. -/
structure MethodDeclM where
  name : String
  decorators : List DecoratorDecl
  params : List ParamDecl
  returnType : TsType
deriving DecidableEq

/-- A class declaration.  getName() can fail, hence the Option. -/
structure ClassDeclM where
  name : Option String
  decorators : List DecoratorDecl
  methods : List MethodDeclM
deriving DecidableEq

/-! ## Parameter analyzer (src/analyzer/params.ts) -/

/-- HTTP method of a controller method (enum SdkHttpMethod). -/
inductive SdkHttpMethod
  | Delete
  | Get
  | Patch
  | Post
  | Put
deriving DecidableEq

/-- Enum member values: SdkHttpMethod.Get = "GET" and so on. -/
def httpValue : SdkHttpMethod → String
  | .Delete => "DELETE"
  | .Get => "GET"
  | .Patch => "PATCH"
  | .Post => "POST"
  | .Put => "PUT"

/-- Enum member keys: Object.keys(SdkHttpMethod) are the member names, so an
HTTP decorator is recognized by one of these names. -/
def httpDecoratorOfName (s : String) : Option SdkHttpMethod :=
  if s = "Delete" then some .Delete
  else if s = "Get" then some .Get
  else if s = "Patch" then some .Patch
  else if s = "Post" then some .Post
  else if s = "Put" then some .Put
  else none

/-- MethodContext from src/analyzer/params.ts. -/
structure MethodContext where
  absoluteSrcPath : String
  controllerClass : ClassDeclM
  filePath : String
  httpMethod : SdkHttpMethod
  method : MethodDeclM
  route : Route
deriving DecidableEq

/-- Enum ArgDecorator: the recognized parameter decorator kinds. -/
inductive ArgDecorator
  | Body
  | Param
  | Query
deriving DecidableEq

/-- Enum values of ArgDecorator (also the recognized decorator names). -/
def argDecoratorName : ArgDecorator → String
  | .Body => "Body"
  | .Param => "Param"
  | .Query => "Query"

/-- Recognize a parameter decorator by name, as the
Object.values(ArgDecorator).includes filter does. -/
def argDecoratorOfName (s : String) : Option ArgDecorator :=
  if s = "Body" then some .Body
  else if s = "Param" then some .Param
  else if s = "Query" then some .Query
  else none

/-- DecoratedArg from src/analyzer/params.ts. -/
structure DecoratedArg where
  arg : ParamDecl
  argParamKey : Option String
  context : MethodContext
  decorator : DecoratorDecl
  decoratorType : ArgDecorator
deriving DecidableEq

/-- A parameter slot: null, a single pass-through resolved type, or a keyed
map of resolved types (the SdkMethodParam union of the source). -/
inductive SdkMethodParam
  | null
  | single (t : ResolvedTypeDeps)
  | keyed (m : List (String × ResolvedTypeDeps))
deriving DecidableEq

/-- SdkMethodParams from src/analyzer/params.ts. -/
structure SdkMethodParams where
  bodyParams : SdkMethodParam
  context : MethodContext
  queryParams : SdkMethodParam
  routeParams : SdkMethodParam
deriving DecidableEq

/-- JavaScript truthiness of a parameter slot: null is falsy, any object
(single record or key map) is truthy. -/
def slotTruthy : SdkMethodParam → Bool
  | .null => false
  | .single _ => true
  | .keyed _ => true

/-- Property names inherited by the empty JavaScript object literal through
Object.prototype: the source expression testing paramKey against the empty
object literal with the in operator is true exactly for these keys. -/
def objectProtoMembers : List String :=
  ["constructor", "hasOwnProperty", "isPrototypeOf", "propertyIsEnumerable",
   "toLocaleString", "toString", "valueOf", "__proto__",
   "__defineGetter__", "__defineSetter__", "__lookupGetter__", "__lookupSetter__"]

/-- Render a possibly-missing class name the way JavaScript template
interpolation renders undefined. -/
def jsUndef (o : Option String) : String := o.getD "undefined"

/-- extractArgParamKey from src/analyzer/params.ts: at most one decorator
argument, which must be a string literal and must not collide with a property
that every JavaScript object inherits.  The source appends a JSON context
object to some messages; that suffix is elided here. -/
def extractArgParamKey (context : MethodContext) (arg : ParamDecl)
    (decorator : DecoratorDecl) : Except String (Option String) :=
  if decorator.args.length > 1 then
    .error (jsUndef context.controllerClass.name ++ " " ++ context.method.name ++ " "
      ++ decorator.name ++ "() " ++ arg.name ++ " argument decorator has multiple parameters")
  else
    match decorator.args with
    | [] => .ok none
    | .other t :: _ =>
      .error ("The argument provided to the decorator is not a string literal:\n>>> " ++ t)
    | .strLit s :: _ =>
      if s ∈ objectProtoMembers then
        .error (decorator.name ++ "(\x27" ++ s ++ "\x27) param name collides with JavaScript native object property")
      else .ok (some s)

/-- JavaScript truthiness of an extracted key: null and the empty string are
falsy, so the source treats an empty-string key like a missing key. -/
def truthyKeyVal : Option String → Option String
  | none => none
  | some s => if s = "" then none else some s

/-- The three buckets produced by extractDecoratedArgs, keyed by decorator kind. -/
structure DecoratedArgs where
  Param : List DecoratedArg
  Query : List DecoratedArg
  Body : List DecoratedArg
deriving DecidableEq

/-- Append a decorated argument to the bucket of its kind. -/
def pushDecoratedArg (acc : DecoratedArgs) (da : DecoratedArg) : DecoratedArgs :=
  match da.decoratorType with
  | .Param => { acc with Param := acc.Param ++ [da] }
  | .Query => { acc with Query := acc.Query ++ [da] }
  | .Body => { acc with Body := acc.Body ++ [da] }

/-- Loop of extractDecoratedArgs over the method arguments.  The source first
filters the decorators whose name is a recognized ArgDecorator value and then
casts the name; here the filter produces the recognized kind directly. -/
def extractDecoratedArgsLoop (context : MethodContext) :
    List ParamDecl → DecoratedArgs → Except String DecoratedArgs
  | [], acc => .ok acc
  | arg :: rest, acc =>
    let argDecorators := arg.decorators.filterMap
      (fun d => (argDecoratorOfName d.name).map (fun t => (d, t)))
    match argDecorators with
    | [] => extractDecoratedArgsLoop context rest acc
    | [(decorator, decoratorType)] => do
      let argParamKey ← extractArgParamKey context arg decorator
      if (truthyKeyVal argParamKey).isNone && !arg.type.isObject then
        .error (jsUndef context.controllerClass.name ++ " " ++ context.method.name
          ++ " generic controller argument " ++ argDecoratorName decoratorType ++ "() "
          ++ arg.name ++ " must be an object type")
      else
        extractDecoratedArgsLoop context rest
          (pushDecoratedArg acc { arg, argParamKey, context, decorator, decoratorType })
    | _ =>
      .error (jsUndef context.controllerClass.name ++ " " ++ context.method.name
        ++ " has multiple decorators on argument " ++ arg.name)

/-- extractDecoratedArgs from src/analyzer/params.ts. -/
def extractDecoratedArgs (context : MethodContext) : Except String DecoratedArgs :=
  extractDecoratedArgsLoop context context.method.params ⟨[], [], []⟩

/-- Truthy lookup in a JavaScript object used as a map: paramMap[k] is truthy
when k is an own key, and also when k is a member inherited from
Object.prototype (the values stored here are objects, hence truthy). -/
def jsMapHas (m : List (String × ResolvedTypeDeps)) (k : String) : Bool :=
  k ∈ objectProtoMembers || (m.lookup k).isSome

/-- Resolution of a decorated argument type, as the merge loop performs it. -/
def resolveArg (relPath : String → String → String) (da : DecoratedArg) :
    Except String ResolvedTypeDeps :=
  resolveTypeDependencies relPath da.arg.type.frags da.context.filePath da.context.absoluteSrcPath

/-- Loop of mergeDecoratedArgs over the decorated arguments of one kind,
carrying the generic (pass-through) slot and the keyed map. -/
def mergeLoop (relPath : String → String → String) :
    List DecoratedArg → Option ResolvedTypeDeps → List (String × ResolvedTypeDeps) →
    Except String (Option ResolvedTypeDeps × List (String × ResolvedTypeDeps))
  | [], genericParam, paramMap => .ok (genericParam, paramMap)
  | da :: rest, genericParam, paramMap =>
    match resolveArg relPath da with
    | .error e => .error e
    | .ok resolvedType =>
      match truthyKeyVal da.argParamKey with
      | some k =>
        if jsMapHas paramMap k then
          .error (argDecoratorName da.decoratorType ++ "(\x27" ++ k ++ "\x27) used twice in controller method")
        else
          mergeLoop relPath rest genericParam (paramMap ++ [(k, resolvedType)])
      | none =>
        if genericParam.isSome then
          .error (argDecoratorName da.decoratorType ++ "() used twice in controller method")
        else
          mergeLoop relPath rest (some resolvedType) paramMap

/-- mergeDecoratedArgs from src/analyzer/params.ts. -/
def mergeDecoratedArgs (relPath : String → String → String)
    (decoratedArgs : List DecoratedArg) : Except String SdkMethodParam :=
  match mergeLoop relPath decoratedArgs none [] with
  | .error e => .error e
  | .ok r =>
    if r.1.isSome && r.2.length > 0 then
      .error ("Cannot mix generic and specific "
        ++ (match decoratedArgs.head? with
            | some da => argDecoratorName da.decoratorType
            | none => "") ++ "()")
    else if r.2.length > 0 then .ok (.keyed r.2)
    else
      match r.1 with
      | some t => .ok (.single t)
      | none => .ok .null

/-- JavaScript Object.keys applied to a ResolvedTypeDeps record: its own
property names in insertion order (see the object literal returned by
resolveTypeDependencies in the source). -/
def resolvedTypeDepsObjectKeys : List String :=
  ["rawType", "relativeFilePath", "resolvedType", "dependencies", "localTypes"]

/-- First element of the second list that is missing from the first list; the
route-param validation loop aborts on the first such element. -/
def firstMissing (allowed : List String) : List String → Option String
  | [] => none
  | u :: rest => if u ∈ allowed then firstMissing allowed rest else some u

/-- extractParams from src/analyzer/params.ts.  Note on the validation step:
the source tests routeParams instanceof Type, but routeParams is always a
plain record (ResolvedTypeDeps) or a plain key map, never an instance of the
ts-morph Type class, so that test is always false and Object.keys is applied
to the record itself; the branch reading the property names of the first
decorated argument type is kept here, guarded by that constant. -/
def extractParams (relPath : String → String → String) (context : MethodContext) :
    Except String SdkMethodParams := do
  let args ← extractDecoratedArgs context
  let routeParams ← mergeDecoratedArgs relPath args.Param
  let queryParams ← mergeDecoratedArgs relPath args.Query
  let bodyParams ← mergeDecoratedArgs relPath args.Body
  if slotTruthy routeParams then
    let allowedRouteParams := paramsFromRoute context.route
    let routeParamsIsTypeInstance := false
    let usedRouteParams :=
      if routeParamsIsTypeInstance then
        match args.Param.head? with
        | some da => da.arg.type.props
        | none => []
      else
        match routeParams with
        | .keyed m => m.map Prod.fst
        | .single _ => resolvedTypeDepsObjectKeys
        | .null => []
    match firstMissing allowedRouteParams usedRouteParams with
    | some usedParam => .error ("Route param " ++ usedParam ++ " does not appear in route URL")
    | none => .ok { routeParams, queryParams, bodyParams, context }
  else
    .ok { routeParams, queryParams, bodyParams, context }

/-! ## Method analyzer (src/analyzer/methods.ts) -/

/-- SdkMethod from src/analyzer/methods.ts. -/
structure SdkMethod where
  httpMethod : SdkHttpMethod
  name : String
  params : SdkMethodParams
  returnType : ResolvedTypeDeps
  route : Route
  uriPath : String
deriving DecidableEq

/-- Route template of a method: the controller registration prefix (when
truthy) is glued in front of the decorator-provided URI path (when truthy),
mirroring the nested conditional expressions passed to analyzeUri. -/
def methodRouteTemplate (uriPref : Option String) (uriPath : String) : String :=
  match uriPref with
  | some p =>
    if p ≠ "" then
      (if uriPath ≠ "" then "/" ++ p ++ "/" ++ uriPath else "/" ++ p)
    else uriPath
  | none => uriPath

/-- Loop of analyzeMethods over the method declarations of a controller class.
Methods without a recognized HTTP decorator are skipped; all failure paths,
whether the source returns an Error value or aborts the process, are error
results here. -/
def analyzeMethodsLoop (relPath : String → String → String) (controllerClass : ClassDeclM)
    (uriPref : Option String) (filePath absoluteSrcPath : String) :
    List MethodDeclM → Except String (List SdkMethod)
  | [] => .ok []
  | method :: restMethods =>
    let httpDecorators := method.decorators.filterMap
      (fun d => (httpDecoratorOfName d.name).map (fun h => (d, h)))
    match httpDecorators with
    | [] => analyzeMethodsLoop relPath controllerClass uriPref filePath absoluteSrcPath restMethods
    | [(dec, httpMethod)] => do
      let uriPath ←
        if dec.args.length > 1 then
          .error ("Multiple (" ++ toString dec.args.length ++ ") arguments were provided to the HTTP decorator")
        else
          match dec.args with
          | [] => .ok ""
          | .strLit s :: _ => .ok s
          | .other t :: _ =>
            .error ("The argument provided to the HTTP decorator is not a string literal:\n>> " ++ t)
      let route ←
        match analyzeUri (methodRouteTemplate uriPref uriPath) with
        | .error e => .error ("Detected unsupported URI format:\n" ++ e)
        | .ok r => .ok r
      let params ← extractParams relPath
        { controllerClass, httpMethod, route, method, filePath, absoluteSrcPath }
      let returnType ← resolveTypeDependencies relPath method.returnType.frags filePath absoluteSrcPath
      let rest ← analyzeMethodsLoop relPath controllerClass uriPref filePath absoluteSrcPath restMethods
      .ok ({ name := method.name, httpMethod, returnType, route, uriPath, params } :: rest)
    | _ => .error "Detected multiple HTTP decorators on method"

/-- analyzeMethods from src/analyzer/methods.ts. -/
def analyzeMethods (relPath : String → String → String) (controllerClass : ClassDeclM)
    (uriPref : Option String) (filePath absoluteSrcPath : String) :
    Except String (List SdkMethod) :=
  analyzeMethodsLoop relPath controllerClass uriPref filePath absoluteSrcPath controllerClass.methods

/-! ## Controller analyzer (src/analyzer/controller.ts) -/

/-- Word characters of the camelcase splitting regex: letters, digits and
underscore; every other character separates words. -/
def isWordChar (c : Char) : Bool :=
  ('a' ≤ c && c ≤ 'z') || ('A' ≤ c && c ≤ 'Z') || ('0' ≤ c && c ≤ '9') || c = '_'

/-- Split a character list at every non-word character (the separators are
dropped, empty words are kept), as String.prototype.split with the
non-word-character regex does. -/
def splitNonWord : List Char → List (List Char)
  | [] => [[]]
  | c :: rest =>
    if isWordChar c then
      match splitNonWord rest with
      | [] => [[c]]
      | s :: ss => (c :: s) :: ss
    else [] :: splitNonWord rest

/-- Change the case of the first character of a word, keeping the rest;
toLocaleLowerCase and toLocaleUpperCase on one character are modelled by the
Char case functions. -/
def capWord (lower : Bool) : List Char → List Char
  | [] => []
  | c :: rest => (if lower then c.toLower else c.toUpper) :: rest

/-- camelcase from src/analyzer/controller.ts: split on non-word characters,
lowercase the first letter of the first word, uppercase the first letter of
every other word, and join. -/
def camelcase (str : String) : String :=
  match splitNonWord str.data with
  | [] => ""
  | p :: rest => String.mk (capWord true p ++ rest.flatMap (capWord false))

/-- SdkController from src/analyzer/controller.ts. -/
structure SdkController where
  camelClassName : String
  methods : List SdkMethod
  path : String
  registrationName : String
deriving DecidableEq

/-- Outcome of analyzeController: a controller interface, a silent skip (the
source logs a warning and returns null), or a fatal error (the source returns
an Error value or aborts). -/
inductive ControllerAnalysis
  | ok (c : SdkController)
  | skipped
  | err (msg : String)
deriving DecidableEq

/-- A top-level statement of a controller file: a class declaration or
anything else. -/
inductive FileChild
  | classDecl (c : ClassDeclM)
  | otherStatement
deriving DecidableEq

/-- First class declaration of the file, as forEachChildAsArray().find does. -/
def findClassDecl : List FileChild → Option ClassDeclM
  | [] => none
  | .classDecl c :: _ => some c
  | .otherStatement :: rest => findClassDecl rest

/-- Tail of analyzeController once the registration name and URI prefix are
settled: analyze the methods and assemble the controller interface. -/
def analyzeControllerFinish (relPath : String → String → String) (classDecl : ClassDeclM)
    (className registrationName : String) (uriPref : Option String)
    (controllerPath absoluteSrcPath : String) : ControllerAnalysis :=
  match analyzeMethods relPath classDecl uriPref controllerPath absoluteSrcPath with
  | .error e => .err e
  | .ok methods =>
    .ok { path := controllerPath
          camelClassName := camelcase className
          registrationName := registrationName
          methods := methods }

/-- analyzeController from src/analyzer/controller.ts.  The registration name
defaults to the camel-cased class name; a single string-literal argument of
the Controller decorator overrides it (camel-cased) and becomes the URI
prefix.  A missing class, a missing or uncalled decorator, more than one
decorator argument, and a non-string-literal argument all skip the controller
with a warning. -/
def analyzeController (relPath : String → String → String) (fileChildren : List FileChild)
    (controllerPath absoluteSrcPath : String) : ControllerAnalysis :=
  match findClassDecl fileChildren with
  | none => .skipped
  | some classDecl =>
    match classDecl.name with
    | none => .err "Internal error: failed to retrieve name of declared class"
    | some className =>
      match classDecl.decorators.find? (fun d => d.name = "Controller") with
      | none => .skipped
      | some decorator =>
        if !decorator.called then .skipped
        else if decorator.args.length > 1 then .skipped
        else
          match decorator.args.head? with
          | some (.other _) => .skipped
          | some (.strLit s) =>
            analyzeControllerFinish relPath classDecl className (camelcase s)
              (some (camelcase s)) controllerPath absoluteSrcPath
          | none =>
            analyzeControllerFinish relPath classDecl className (camelcase className)
              none controllerPath absoluteSrcPath

/-! ## Plain-flavor generator (src/generator/genmodules.ts) -/

/-- methodParamsToString from src/generator/genmodules.ts. -/
def methodParamsToString (params : SdkMethodParam) : String :=
  match params with
  | .null => ""
  | .single t => t.resolvedType
  | .keyed m =>
    String.intercalate "\n"
      (["\x7b"] ++ m.map (fun kv => kv.1 ++ ": " ++ kv.2.resolvedType ++ ",") ++ ["\x7d"])

/-- generateSdkMethodParams from src/generator/genmodules.ts: a GET method
must not carry a body slot and a non-GET method must not carry a query slot
(both abort generation); otherwise the present slots are rendered and joined
into one params binder. -/
def generateSdkMethodParams (method : SdkMethod) : Except String String :=
  if method.httpMethod = .Get && slotTruthy method.params.bodyParams then
    .error (httpValue method.httpMethod ++ " " ++ method.name ++ " should not have Body params")
  else if method.httpMethod ≠ .Get && slotTruthy method.params.queryParams then
    .error (httpValue method.httpMethod ++ " " ++ method.name ++ " should not have Query params")
  else
    let inputTypes :=
      (if slotTruthy method.params.routeParams then [methodParamsToString method.params.routeParams] else [])
      ++ (if slotTruthy method.params.queryParams then [methodParamsToString method.params.queryParams] else [])
      ++ (if slotTruthy method.params.bodyParams then [methodParamsToString method.params.bodyParams] else [])
    let mergedInputType := String.intercalate " &\n" inputTypes
    .ok (if mergedInputType ≠ "" then "params: " ++ mergedInputType else "")

/-- generateSdkMethodBody from src/generator/genmodules.ts: destructure the
route parameters out of the caller-supplied params object when any slot is
present, then dispatch through the central request function with the route
rendered in template-interpolation form. -/
def generateSdkMethodBody (method : SdkMethod) : Except String String :=
  let routeParams := paramsFromRoute method.route
  match resolveRouteWith method.route (fun param => "$\x7b" ++ param ++ "\x7d") with
  | .error e => .error ("Internal error: failed to resolve route: " ++ e)
  | .ok resolvedRoute =>
    let hasAnyParams := slotTruthy method.params.routeParams
      || slotTruthy method.params.queryParams || slotTruthy method.params.bodyParams
    let routeParamsSpread :=
      if routeParams.length > 0 then String.intercalate ", " routeParams ++ "," else ""
    let isGet := method.httpMethod = .Get
    let body := if isGet || !hasAnyParams then "null" else "rest"
    let query := if isGet && hasAnyParams then "rest" else "\x7b\x7d"
    let lines :=
      (if hasAnyParams then ["const \x7b " ++ routeParamsSpread ++ " ...rest \x7d = params"] else [])
      ++ ["return request(\x27" ++ httpValue method.httpMethod ++ "\x27, \x60"
          ++ resolvedRoute ++ "\x60, " ++ body ++ ", " ++ query ++ ")"]
    .ok (String.intercalate "\n" lines)

/-! ## Derived observations used by the statements -/

/-- Whether an Except value is a success. -/
def isOkE {α : Type} (e : Except String α) : Bool :=
  match e with
  | .ok _ => true
  | .error _ => false

/-- Explicit truthy keys of a decorated-argument list, in order. -/
def truthyKeys (args : List DecoratedArg) : List String :=
  args.filterMap (fun a => truthyKeyVal a.argParamKey)

/-- Number of effectively keyless arguments (no key, or an empty-string key,
which JavaScript truthiness treats as missing). -/
def genericCount (args : List DecoratedArg) : Nat :=
  (args.filter (fun a => (truthyKeyVal a.argParamKey).isNone)).length

/-- Weight of an optional value: one when present, zero when absent. -/
def gWeight {α : Type} : Option α → Nat
  | none => 0
  | some _ => 1

/-- Placeholder record for total accessors. -/
def defaultRTD : ResolvedTypeDeps :=
  { rawType := "", resolvedType := "", relativeFilePath := "", dependencies := [], localTypes := [] }

/-- Resolved type of a decorated argument, defaulting on failure. -/
def resD (relPath : String → String → String) (a : DecoratedArg) : ResolvedTypeDeps :=
  match resolveArg relPath a with
  | .ok t => t
  | .error _ => defaultRTD

/-- Truthy key of a decorated argument, defaulting to the empty string. -/
def keyD (a : DecoratedArg) : String :=
  (truthyKeyVal a.argParamKey).getD ""

/-- Route rendered with the fixed template-interpolation wrapper, as the spec
describes the final interpolated route string of a generated method body. -/
def routeRenderInterp (r : Route) : String :=
  String.mk (joinSlash (r.segments.map (fun s =>
    match s with
    | .literal l => l.data
    | .param n => ("$\x7b" ++ n ++ "\x7d").data)))

/-- The generated method body as the spec describes it: the route parameter
names are destructured by name, in route order, out of the caller-supplied
argument object exactly when some parameter slot is present; the remainder
object is the body payload for a non-GET method with parameters and the
query payload for a GET method with parameters; the dispatch call receives
the literal null in place of an absent body and the empty object literal in
place of an absent query. -/
def specMethodBody (m : SdkMethod) : String :=
  let ps := paramsFromRoute m.route
  let anyParams := slotTruthy m.params.routeParams
    || slotTruthy m.params.queryParams || slotTruthy m.params.bodyParams
  let destructureLine :=
    "const \x7b " ++ (if ps.length > 0 then String.intercalate ", " ps ++ "," else "")
      ++ " ...rest \x7d = params"
  let bodyArg := if m.httpMethod = .Get || !anyParams then "null" else "rest"
  let queryArg := if m.httpMethod = .Get && anyParams then "rest" else "\x7b\x7d"
  let request := "return request(\x27" ++ httpValue m.httpMethod ++ "\x27, \x60"
    ++ routeRenderInterp m.route ++ "\x60, " ++ bodyArg ++ ", " ++ queryArg ++ ")"
  if anyParams then destructureLine ++ "\n" ++ request else request

/-! ## Concrete sample inputs for witnesses and counterexamples -/

/-- Identity stand-in for the external path.relative call; the sample inputs
below only use relative qualifier paths, so it is never consulted. -/
def relPathId : String → String → String := fun _ p => p

/-- A local object type with an id property. -/
def cIdObjType : TsType :=
  { frags := [.text "IdObj"], isObject := true, props := ["id"] }

/-- The string type. -/
def cStrType : TsType :=
  { frags := [.text "string"], isObject := false, props := [] }

/-- Resolved form of cIdObjType. -/
def cIdObjRTD : ResolvedTypeDeps :=
  { rawType := "IdObj", resolvedType := "IdObj", relativeFilePath := "user.controller.ts",
    dependencies := [], localTypes := [] }

/-- Resolved form of cStrType. -/
def cStrRTD : ResolvedTypeDeps :=
  { rawType := "string", resolvedType := "string", relativeFilePath := "user.controller.ts",
    dependencies := [], localTypes := [] }

/-- Route parsed from the template /:id/profile. -/
def cRouteIdProfile : Route := ⟨[.literal "", .param "id", .literal "profile"]⟩

/-- Route parsed from the template /profile. -/
def cRouteProfile : Route := ⟨[.literal "", .literal "profile"]⟩

/-- Route parsed from the template /users/list. -/
def cRouteUsersList : Route := ⟨[.literal "", .literal "users", .literal "list"]⟩

/-- A method declaration with one keyless path-decorated object argument. -/
def cMethodKeyless : MethodDeclM :=
  { name := "getProfile"
    decorators := [{ name := "Get", called := true, args := [.strLit ":id/profile"] }]
    params := [{ name := "obj"
                 decorators := [{ name := "Param", called := true, args := [] }]
                 type := cIdObjType }]
    returnType := cStrType }

/-- A method declaration with one path argument keyed id. -/
def cMethodKeyed : MethodDeclM :=
  { name := "getProfile"
    decorators := [{ name := "Get", called := true, args := [.strLit ":id/profile"] }]
    params := [{ name := "id"
                 decorators := [{ name := "Param", called := true, args := [.strLit "id"] }]
                 type := cStrType }]
    returnType := cStrType }

/-- A POST method declaration with one keyless body-decorated object argument. -/
def cMethodPostBody : MethodDeclM :=
  { name := "update"
    decorators := [{ name := "Post", called := true, args := [.strLit "update"] }]
    params := [{ name := "payload"
                 decorators := [{ name := "Body", called := true, args := [] }]
                 type := cIdObjType }]
    returnType := cStrType }

/-- A controller class carrying a Controller decorator with one literal. -/
def cClass : ClassDeclM :=
  { name := some "UserController"
    decorators := [{ name := "Controller", called := true, args := [.strLit "users"] }]
    methods := [] }

/-- Context of cMethodKeyless on the route /:id/profile. -/
def cCtxKeyless : MethodContext :=
  { absoluteSrcPath := "src", controllerClass := cClass, filePath := "user.controller.ts",
    httpMethod := .Get, method := cMethodKeyless, route := cRouteIdProfile }

/-- Context of cMethodKeyed on the route /:id/profile. -/
def cCtxKeyed : MethodContext :=
  { absoluteSrcPath := "src", controllerClass := cClass, filePath := "user.controller.ts",
    httpMethod := .Get, method := cMethodKeyed, route := cRouteIdProfile }

/-- Context of cMethodKeyed on the route /profile, which lacks the id param. -/
def cCtxKeyedBad : MethodContext :=
  { absoluteSrcPath := "src", controllerClass := cClass, filePath := "user.controller.ts",
    httpMethod := .Get, method := cMethodKeyed, route := cRouteProfile }

/-- Context of cMethodPostBody. -/
def cCtxPostBody : MethodContext :=
  { absoluteSrcPath := "src", controllerClass := cClass, filePath := "user.controller.ts",
    httpMethod := .Post, method := cMethodPostBody, route := cRouteProfile }

/-- A keyless decorated path argument (over cCtxKeyless). -/
def cArgKeyless : DecoratedArg :=
  { arg := { name := "obj"
             decorators := [{ name := "Param", called := true, args := [] }]
             type := cIdObjType }
    argParamKey := none
    context := cCtxKeyless
    decorator := { name := "Param", called := true, args := [] }
    decoratorType := .Param }

/-- A second keyless decorated path argument (over cCtxKeyless). -/
def cArgKeyless2 : DecoratedArg :=
  { arg := { name := "obj2"
             decorators := [{ name := "Param", called := true, args := [] }]
             type := cIdObjType }
    argParamKey := none
    context := cCtxKeyless
    decorator := { name := "Param", called := true, args := [] }
    decoratorType := .Param }

/-- A decorated query argument whose explicit key is the empty string. -/
def cArgEmptyKey : DecoratedArg :=
  { arg := { name := "q"
             decorators := [{ name := "Query", called := true, args := [.strLit ""] }]
             type := cIdObjType }
    argParamKey := some ""
    context := cCtxKeyless
    decorator := { name := "Query", called := true, args := [.strLit ""] }
    decoratorType := .Query }

/-- The SdkMethodParams of a method with no decorated arguments. -/
def cNoParams : SdkMethodParams :=
  { bodyParams := .null, context := cCtxKeyless, queryParams := .null, routeParams := .null }

/-- The GET method generated for the users controller list route, with no
decorated arguments. -/
def cUsersListMethod : SdkMethod :=
  { httpMethod := .Get, name := "list", params := cNoParams, returnType := cStrRTD,
    route := cRouteUsersList, uriPath := "list" }

/-- A GET method wrongly carrying a body slot. -/
def cGetWithBody : SdkMethod :=
  { httpMethod := .Get, name := "list"
    params := { bodyParams := .single cIdObjRTD, context := cCtxKeyless,
                queryParams := .null, routeParams := .null }
    returnType := cStrRTD, route := cRouteUsersList, uriPath := "list" }

/-- A POST method wrongly carrying a query slot. -/
def cPostWithQuery : SdkMethod :=
  { httpMethod := .Post, name := "update"
    params := { bodyParams := .null, context := cCtxPostBody,
                queryParams := .single cIdObjRTD, routeParams := .null }
    returnType := cStrRTD, route := cRouteProfile, uriPath := "update" }

/-- Sample fragments of a raw type with a repeated cross-file qualifier. -/
def cFrags : List Frag :=
  [.text "Array<", .imp "models/user" "User", .text " | ", .imp "models/user" "User", .text ">"]

/-- Resolution of cFrags from the file api/user.controller.ts. -/
def cFragsRTD : ResolvedTypeDeps :=
  { rawType := "Array<import(\"models/user\").User | import(\"models/user\").User>"
    resolvedType := "Array<User | User>"
    relativeFilePath := "api/user.controller.ts"
    dependencies := [("models/user", ["User"])]
    localTypes := [] }

/-- A controller class whose Controller decorator has two arguments. -/
def cClassTwoArgs : ClassDeclM :=
  { name := some "UserController"
    decorators := [{ name := "Controller", called := true, args := [.strLit "a", .strLit "b"] }]
    methods := [] }

/-- A controller class whose Controller decorator argument is not a literal. -/
def cClassNonLit : ClassDeclM :=
  { name := some "UserController"
    decorators := [{ name := "Controller", called := true, args := [.other "name"] }]
    methods := [] }

/-- The parent-directory escape repeated n times, as characters. -/
def dotdots : Nat → List Char
  | 0 => []
  | n + 1 => '.' :: '.' :: '/' :: dotdots n

/-- A decorator called with the key toString, which collides with an inherited
object property. -/
def cDecToString : DecoratorDecl :=
  { name := "Query", called := true, args := [.strLit "toString"] }

/-- A decorator called with the ordinary key email. -/
def cDecEmail : DecoratorDecl :=
  { name := "Query", called := true, args := [.strLit "email"] }

/-- A decorator called with no argument. -/
def cDecNoArgs : DecoratorDecl :=
  { name := "Query", called := true, args := [] }

/-- A plain string-typed parameter declaration. -/
def cParamEmail : ParamDecl :=
  { name := "email", decorators := [cDecEmail], type := cStrType }

/-- The decorated path argument keyed id (over cCtxKeyed). -/
def cArgKeyedId : DecoratedArg :=
  { arg := { name := "id"
             decorators := [{ name := "Param", called := true, args := [.strLit "id"] }]
             type := cStrType }
    argParamKey := some "id"
    context := cCtxKeyed
    decorator := { name := "Param", called := true, args := [.strLit "id"] }
    decoratorType := .Param }

/-- Result of extractParams on cCtxKeyed. -/
def cKeyedParams : SdkMethodParams :=
  { bodyParams := .null, context := cCtxKeyed, queryParams := .null,
    routeParams := .keyed [("id", cStrRTD)] }

/-- Result of extractParams on cCtxPostBody. -/
def cPostBodyParams : SdkMethodParams :=
  { bodyParams := .single cIdObjRTD, context := cCtxPostBody,
    queryParams := .null, routeParams := .null }

/-! ## Theorems -/

/-- A list without the parent-escape marker loses nothing to stripParents. -/
theorem stripParents_noDotDot (l : List Char) (h : startsDotDot l = false) :
    stripParents l = (0, l) := by
  rcases l with _ | ⟨c1, _ | ⟨c2, _ | ⟨c3, rest⟩⟩⟩
  · rfl
  · rfl
  · rfl
  · simp only [startsDotDot] at h
    simp [stripParents, h]

/-- stripParents counts exactly the leading parent escapes. -/
theorem stripParents_dotdots (n : Nat) (r : List Char) (h : startsDotDot r = false) :
    stripParents (dotdots n ++ r) = (n, r) := by
  induction n with
  | zero => simpa [dotdots] using stripParents_noDotDot r h
  | succ n ih => simp [dotdots, stripParents, ih]

/-- C9: normalizeExternalFilePath maps a path made of N parent escapes followed
by a remainder that is not itself parent-escaped to the depth-tagged synthetic
directory, and returns any path that does not begin with a parent escape
unchanged. -/
theorem normalizeExternalFilePath_spec :
    (∀ (n : Nat) (r : String), 1 ≤ n → startsDotDot r.data = false →
      normalizeExternalFilePath (String.mk (dotdots n ++ r.data)) =
        "_external" ++ toString n ++ "/" ++ r) ∧
    (∀ p : String, startsDotDot p.data = false → normalizeExternalFilePath p = p) := by
  constructor
  · intro n r hn hr
    unfold normalizeExternalFilePath
    have hs : stripParents (String.mk (dotdots n ++ r.data)).data = (n, r.data) :=
      stripParents_dotdots n r.data hr
    rw [hs]
    have hne : ¬ n = 0 := by omega
    simp [hne]
  · intro p hp
    unfold normalizeExternalFilePath
    rw [stripParents_noDotDot p.data hp]
    simp

/-- Witness for C9 at a concrete two-level external path. -/
theorem normalizeExternalFilePath_spec_witness :
    normalizeExternalFilePath "../../sibling/x.ts" = "_external2/sibling/x.ts" ∧
    normalizeExternalFilePath "models/user" = "models/user" := by
  constructor
  · have h := normalizeExternalFilePath_spec.1 2 "sibling/x.ts" (by decide) (by decide)
    have e : String.mk (dotdots 2 ++ ("sibling/x.ts" : String).data) = "../../sibling/x.ts" := by decide
    rw [e] at h
    exact h.trans (by decide)
  · exact normalizeExternalFilePath_spec.2 "models/user" (by decide)

/-- splitSlash never returns an empty segment list. -/
theorem splitSlash_ne_nil (l : List Char) : splitSlash l ≠ [] := by
  induction l with
  | nil => simp [splitSlash]
  | cons c rest ih =>
    simp only [splitSlash]
    by_cases h : c = '/'
    · simp [h]
    · simp only [h, if_false]
      rcases hs : splitSlash rest with _ | ⟨s, ss⟩
      · exact absurd hs ih
      · simp

/-- Prepending a character to the first segment prepends it to the join. -/
theorem joinSlash_cons_cons (c : Char) (s : List Char) (ss : List (List Char)) :
    joinSlash ((c :: s) :: ss) = c :: joinSlash (s :: ss) := by
  cases ss <;> simp [joinSlash]

/-- joinSlash undoes splitSlash. -/
theorem joinSlash_splitSlash (l : List Char) : joinSlash (splitSlash l) = l := by
  induction l with
  | nil => rfl
  | cons c rest ih =>
    simp only [splitSlash]
    by_cases h : c = '/'
    · simp only [h, if_true]
      rcases hs : splitSlash rest with _ | ⟨s, ss⟩
      · exact absurd hs (splitSlash_ne_nil rest)
      · rw [hs] at ih
        simpa [joinSlash] using ih
    · simp only [h, if_false]
      rcases hs : splitSlash rest with _ | ⟨s, ss⟩
      · exact absurd hs (splitSlash_ne_nil rest)
      · rw [hs] at ih
        rw [joinSlash_cons_cons, ih]

/-- A successfully parsed segment renders back to its own characters. -/
theorem parseSeg_chars (s : List Char) (seg : RouteSegment) (h : parseSeg s = .ok seg) :
    segChars seg = s := by
  rcases s with _ | ⟨c, rest⟩
  · simp only [parseSeg] at h
    cases h
    rfl
  · simp only [parseSeg] at h
    by_cases hc : c = ':'
    · simp only [hc, if_true] at h
      split at h
      · cases h
      · cases h
        simp [segChars, hc]
    · simp only [hc, if_false] at h
      split at h
      · cases h
      · cases h
        simp [segChars]

/-- Successfully parsed segments render back to the original segment lists. -/
theorem parseSegs_chars (ls : List (List Char)) (segs : List RouteSegment)
    (h : parseSegs ls = .ok segs) : segs.map segChars = ls := by
  induction ls generalizing segs with
  | nil =>
    simp only [parseSegs] at h
    cases h
    rfl
  | cons s ss ih =>
    simp only [parseSegs] at h
    cases h1 : parseSeg s with
    | error e => rw [h1] at h; cases h
    | ok r =>
      rw [h1] at h
      cases h2 : parseSegs ss with
      | error e => rw [h2] at h; cases h
      | ok rs =>
        rw [h2] at h
        cases h
        simp [parseSeg_chars s r h1, ih rs h2]

/-- C7: unparsing the route parsed from a valid template reconstructs the
template exactly. -/
theorem parseRoute_roundtrip (t : String) (r : Route) (h : parseRoute t = .ok r) :
    unparseRoute r = t := by
  unfold parseRoute at h
  cases hps : parseSegs (splitSlash t.data) with
  | error e => rw [hps] at h; cases h
  | ok segs =>
    rw [hps] at h
    have h' : (if (paramNames segs).Nodup then Except.ok (⟨segs⟩ : Route)
        else Except.error "duplicate route parameter name") = Except.ok r := h
    by_cases hnd : (paramNames segs).Nodup
    · rw [if_pos hnd] at h'
      cases h'
      unfold unparseRoute
      rw [parseSegs_chars _ _ hps, joinSlash_splitSlash]
    · rw [if_neg hnd] at h'
      cases h'

/-- Witness for C7 at a concrete template with literals and a parameter. -/
theorem parseRoute_roundtrip_witness :
    unparseRoute ⟨[.literal "", .literal "users", .param "id", .literal "profile"]⟩ =
      "/users/:id/profile" :=
  parseRoute_roundtrip "/users/:id/profile"
    ⟨[.literal "", .literal "users", .param "id", .literal "profile"]⟩ (by decide)

/-- C10: a decorator called with one string-literal key fails exactly when the
key is a property name inherited by empty JavaScript object literals, returns
the key otherwise, and a decorator called with no argument yields no key. -/
theorem extractArgParamKey_spec (ctx : MethodContext) (arg : ParamDecl)
    (dec : DecoratorDecl) :
    (∀ s, dec.args = [.strLit s] →
      extractArgParamKey ctx arg dec =
        (if s ∈ objectProtoMembers then
          .error (dec.name ++ "(\x27" ++ s
            ++ "\x27) param name collides with JavaScript native object property")
        else .ok (some s))) ∧
    (dec.args = [] → extractArgParamKey ctx arg dec = .ok none) := by
  constructor
  · intro s hargs
    unfold extractArgParamKey
    rw [hargs]
    simp
  · intro hargs
    unfold extractArgParamKey
    rw [hargs]
    simp

/-- Witness for C10: the key toString collides, the key email is returned, and
a zero-argument decorator yields no key. -/
theorem extractArgParamKey_spec_witness :
    extractArgParamKey cCtxKeyless cParamEmail cDecToString =
      .error "Query(\x27toString\x27) param name collides with JavaScript native object property" ∧
    extractArgParamKey cCtxKeyless cParamEmail cDecEmail = .ok (some "email") ∧
    extractArgParamKey cCtxKeyless cParamEmail cDecNoArgs = .ok none := by
  refine ⟨?_, ?_, ?_⟩
  · have h := (extractArgParamKey_spec cCtxKeyless cParamEmail cDecToString).1 "toString" rfl
    exact h.trans (by decide)
  · have h := (extractArgParamKey_spec cCtxKeyless cParamEmail cDecEmail).1 "email" rfl
    exact h.trans (by decide)
  · exact (extractArgParamKey_spec cCtxKeyless cParamEmail cDecNoArgs).2 rfl

/-- C3 is a code bug: the route-param validation tests the slot with a
JavaScript instanceof check that is always false, so a keyless pass-through
path parameter is validated against the field names of the ResolvedTypeDeps
record instead of the property names of its object type.  A method whose only
path parameter is the keyless object with property id fails on /:id/profile
(the claim and the code comment expect success), while the keyed examples of
the claim behave as stated. -/
theorem extractParams_routeParam_bug :
    extractParams relPathId cCtxKeyless =
      .error "Route param rawType does not appear in route URL" ∧
    extractParams relPathId cCtxKeyed = .ok cKeyedParams ∧
    extractParams relPathId cCtxKeyedBad =
      .error "Route param id does not appear in route URL" := by
  refine ⟨by decide, by decide, by decide⟩

/-- C4: a GET method carrying a body slot and a non-GET method carrying a
query slot are both fatal in the generator before any output is produced, and
a POST method declaring only a body-decorated argument passes analysis with a
populated bodyParams slot. -/
theorem generateSdkMethodParams_spec (m : SdkMethod) :
    (m.httpMethod = .Get → slotTruthy m.params.bodyParams = true →
      generateSdkMethodParams m =
        .error (httpValue m.httpMethod ++ " " ++ m.name ++ " should not have Body params")) ∧
    (m.httpMethod ≠ .Get → slotTruthy m.params.queryParams = true →
      generateSdkMethodParams m =
        .error (httpValue m.httpMethod ++ " " ++ m.name ++ " should not have Query params")) ∧
    (extractParams relPathId cCtxPostBody = .ok cPostBodyParams ∧
      cPostBodyParams.bodyParams = .single cIdObjRTD) := by
  refine ⟨?_, ?_, by decide, by decide⟩
  · intro h1 h2
    unfold generateSdkMethodParams
    simp [h1, h2]
  · intro h1 h2
    unfold generateSdkMethodParams
    simp [h1, h2]

/-- Witness for C4 at a concrete GET method with a body slot and a concrete
POST method with a query slot. -/
theorem generateSdkMethodParams_spec_witness :
    generateSdkMethodParams cGetWithBody = .error "GET list should not have Body params" ∧
    generateSdkMethodParams cPostWithQuery = .error "POST update should not have Query params" := by
  constructor
  · have h := (generateSdkMethodParams_spec cGetWithBody).1 rfl (by decide)
    exact h.trans (by decide)
  · have h := (generateSdkMethodParams_spec cPostWithQuery).2.1 (by decide) (by decide)
    exact h.trans (by decide)

/-- Counterexample to C8 as stated: a Controller marker called with two
arguments, or with a non-string-literal argument, does not produce a fatal
error; the controller is skipped exactly like one with no marker. -/
theorem analyzeController_marker_args_counterexample :
    analyzeController relPathId [.classDecl cClassTwoArgs] "user.controller.ts" "src" =
      .skipped ∧
    analyzeController relPathId [.classDecl cClassNonLit] "user.controller.ts" "src" =
      .skipped := by
  refine ⟨by decide, by decide⟩

/-- C8 amended: the registration name is the camel-cased class name unless the
marker carries exactly one string-literal argument, which overrides it
(camel-cased); a marker with more than one argument or a non-string-literal
argument causes the controller to be skipped with a warning, exactly like a
missing marker, and is not a fatal error. -/
theorem analyzeController_registration (relPath : String → String → String)
    (children : List FileChild) (cls : ClassDeclM) (className : String)
    (cp asp : String)
    (hfind : findClassDecl children = some cls)
    (hname : cls.name = some className) :
    (cls.decorators.find? (fun d => d.name = "Controller") = none →
      analyzeController relPath children cp asp = .skipped) ∧
    (∀ dec, cls.decorators.find? (fun d => d.name = "Controller") = some dec →
      dec.called = true →
      ((∀ ms, dec.args = [] → analyzeMethods relPath cls none cp asp = .ok ms →
        analyzeController relPath children cp asp =
          .ok { path := cp, camelClassName := camelcase className,
                registrationName := camelcase className, methods := ms }) ∧
      (∀ s ms, dec.args = [.strLit s] →
        analyzeMethods relPath cls (some (camelcase s)) cp asp = .ok ms →
        analyzeController relPath children cp asp =
          .ok { path := cp, camelClassName := camelcase className,
                registrationName := camelcase s, methods := ms }) ∧
      (dec.args.length > 1 → analyzeController relPath children cp asp = .skipped) ∧
      (∀ t rest, dec.args = .other t :: rest →
        analyzeController relPath children cp asp = .skipped))) := by
  constructor
  · intro hnone
    simp only [analyzeController, hfind, hname, hnone]
  · intro dec hdec hcalled
    refine ⟨?_, ?_, ?_, ?_⟩
    · intro ms hargs hms
      simp only [analyzeController, hfind, hname, hdec, hcalled, hargs,
        analyzeControllerFinish, hms]
      simp
    · intro s ms hargs hms
      simp only [analyzeController, hfind, hname, hdec, hcalled, hargs,
        analyzeControllerFinish, hms]
      simp
      rw [hms]
    · intro hlen
      simp only [analyzeController, hfind, hname, hdec, hcalled]
      simp [hlen]
    · intro t rest hargs
      rcases rest with _ | ⟨a, rest⟩
      · simp only [analyzeController, hfind, hname, hdec, hcalled, hargs]
        simp
      · simp only [analyzeController, hfind, hname, hdec, hcalled, hargs]
        simp

/-- Joining two strings with a separator. -/
theorem intercalate_pair (s a b : String) : String.intercalate s [a, b] = a ++ s ++ b := rfl

/-- Joining a single string with a separator. -/
theorem intercalate_single (s a : String) : String.intercalate s [a] = a := rfl

/-- C2: the generated method body always destructures exactly the route
parameter names, in route order, when any slot is present, and dispatches
with the remainder as body for non-GET with parameters, the remainder as
query for GET with parameters, and null and the empty object literal
otherwise; in particular the parameterless GET method on /users/list yields
the expected dispatch call. -/
theorem generateSdkMethodBody_spec :
    (∀ m : SdkMethod, generateSdkMethodBody m = .ok (specMethodBody m)) ∧
    generateSdkMethodBody cUsersListMethod =
      .ok "return request(\x27GET\x27, \x60/users/list\x60, null, \x7b\x7d)" := by
  constructor
  · intro m
    by_cases hAny : (slotTruthy m.params.routeParams || slotTruthy m.params.queryParams
        || slotTruthy m.params.bodyParams) = true
    · simp only [generateSdkMethodBody, specMethodBody, resolveRouteWith,
        routeRenderInterp, hAny]
      simp only [if_true]
      exact congrArg Except.ok (intercalate_pair "\n" _ _)
    · simp only [Bool.not_eq_true] at hAny
      simp only [generateSdkMethodBody, specMethodBody, resolveRouteWith,
        routeRenderInterp, hAny]
      simp only [Bool.false_eq_true, if_false]
      exact congrArg Except.ok (intercalate_single "\n" _)
  · decide

/-- Witness for C8 amended: the users controller with a single literal marker
argument is registered under the camel-cased literal, not the class name. -/
theorem analyzeController_registration_witness :
    analyzeController relPathId [.classDecl cClass] "user.controller.ts" "src" =
      .ok { path := "user.controller.ts", camelClassName := "userController",
            registrationName := "users", methods := [] } := by
  have h := ((analyzeController_registration relPathId [.classDecl cClass] cClass
    "UserController" "user.controller.ts" "src" rfl rfl).2
    { name := "Controller", called := true, args := [.strLit "users"] }
    (by decide) rfl).2.1 "users" [] rfl (by decide)
  exact h.trans (by decide)

/-- Unfolding pairsOf on the empty map. -/
@[simp] theorem pairsOf_nil : pairsOf [] = [] := rfl

/-- Unfolding pairsOf on a map entry. -/
@[simp] theorem pairsOf_cons (hd : String × List String) (tl : List (String × List String)) :
    pairsOf (hd :: tl) = hd.2.map (fun t => (hd.1, t)) ++ pairsOf tl := rfl

/-- Unfolding sumLens on the empty map. -/
@[simp] theorem sumLens_nil : sumLens [] = 0 := rfl

/-- Unfolding sumLens on a map entry. -/
@[simp] theorem sumLens_cons (hd : String × List String) (tl : List (String × List String)) :
    sumLens (hd :: tl) = hd.2.length + sumLens tl := by
  simp [sumLens]

/-- Unfolding depKeys on the empty map. -/
@[simp] theorem depKeys_nil : depKeys [] = [] := rfl

/-- Unfolding depKeys on a map entry. -/
@[simp] theorem depKeys_cons (hd : String × List String) (tl : List (String × List String)) :
    depKeys (hd :: tl) = hd.1 :: depKeys tl := rfl

/-- Unfolding depsInsert when the head entry holds the inserted file. -/
theorem depsInsert_cons_eq (g : String) (ts : List String) (tl : List (String × List String))
    (f ty : String) (h : g = f) :
    depsInsert ((g, ts) :: tl) f ty = (g, if ty ∈ ts then ts else ts ++ [ty]) :: tl := by
  simp [depsInsert, h]

/-- Unfolding depsInsert when the head entry holds another file. -/
theorem depsInsert_cons_ne (g : String) (ts : List String) (tl : List (String × List String))
    (f ty : String) (h : ¬ g = f) :
    depsInsert ((g, ts) :: tl) f ty = (g, ts) :: depsInsert tl f ty := by
  simp [depsInsert, h]

/-- Membership in the pair list after one dependency insertion. -/
theorem mem_pairsOf_depsInsert (d : List (String × List String)) (f ty : String)
    (p : String × String) :
    p ∈ pairsOf (depsInsert d f ty) ↔ p ∈ pairsOf d ∨ p = (f, ty) := by
  induction d with
  | nil => simp [depsInsert]
  | cons hd tl ih =>
    obtain ⟨g, ts⟩ := hd
    by_cases hg : g = f
    · subst hg
      rw [depsInsert_cons_eq g ts tl g ty rfl]
      by_cases hty : ty ∈ ts
      · rw [if_pos hty]
        have hmem : (g, ty) ∈ pairsOf ((g, ts) :: tl) := by
          simp only [pairsOf_cons]
          exact List.mem_append_left _ (List.mem_map.2 ⟨ty, hty, rfl⟩)
        constructor
        · exact fun h => Or.inl h
        · rintro (h | rfl)
          · exact h
          · exact hmem
      · rw [if_neg hty]
        simp only [pairsOf_cons, List.mem_append, List.mem_map]
        constructor
        · rintro (⟨t, ht, rfl⟩ | h)
          · rcases ht with ht' | ht'
            · exact Or.inl (Or.inl ⟨t, ht', rfl⟩)
            · simp only [List.mem_singleton] at ht'
              subst ht'
              exact Or.inr rfl
          · exact Or.inl (Or.inr h)
        · rintro ((⟨t, ht, rfl⟩ | h) | rfl)
          · exact Or.inl ⟨t, Or.inl ht, rfl⟩
          · exact Or.inr h
          · exact Or.inl ⟨ty, Or.inr (List.mem_singleton.2 rfl), rfl⟩
    · rw [depsInsert_cons_ne g ts tl f ty hg]
      simp only [pairsOf_cons, List.mem_append, ih]
      tauto

/-- Keys after one dependency insertion. -/
theorem depKeys_depsInsert (d : List (String × List String)) (f ty : String) :
    depKeys (depsInsert d f ty) =
      if f ∈ depKeys d then depKeys d else depKeys d ++ [f] := by
  induction d with
  | nil => simp [depsInsert]
  | cons hd tl ih =>
    obtain ⟨g, ts⟩ := hd
    by_cases hg : g = f
    · subst hg
      by_cases hty : ty ∈ ts <;>
        simp [depsInsert, hty]
    · simp only [depsInsert, if_neg hg, depKeys_cons, ih]
      have : ¬ f = g := fun h => hg h.symm
      by_cases hf : f ∈ depKeys tl <;> simp [hf, this]

/-- Dependency insertion keeps the keys free of duplicates. -/
theorem nodup_depKeys_depsInsert (d : List (String × List String)) (f ty : String)
    (h : (depKeys d).Nodup) : (depKeys (depsInsert d f ty)).Nodup := by
  rw [depKeys_depsInsert]
  by_cases hf : f ∈ depKeys d
  · simpa [hf] using h
  · simp only [hf, if_false]
    simp [List.nodup_append, h, hf]

/-- The first component of a recorded pair is a key of the map. -/
theorem fst_mem_depKeys_of_mem_pairsOf (d : List (String × List String))
    (p : String × String) (h : p ∈ pairsOf d) : p.1 ∈ depKeys d := by
  induction d with
  | nil => simp at h
  | cons hd tl ih =>
    simp only [pairsOf_cons, List.mem_append, List.mem_map] at h
    rcases h with ⟨t, _, rfl⟩ | h
    · simp
    · simp [ih h]

/-- Dependency insertion keeps the recorded pairs free of duplicates. -/
theorem nodup_pairsOf_depsInsert (d : List (String × List String)) (f ty : String)
    (hk : (depKeys d).Nodup) (hp : (pairsOf d).Nodup) :
    (pairsOf (depsInsert d f ty)).Nodup := by
  induction d with
  | nil => simp [depsInsert]
  | cons hd tl ih =>
    obtain ⟨g, ts⟩ := hd
    simp only [depKeys_cons, List.nodup_cons] at hk
    simp only [pairsOf_cons, List.nodup_append] at hp
    obtain ⟨hkg, hktl⟩ := hk
    obtain ⟨hp1, hp2, hp3⟩ := hp
    have hinj : Function.Injective (fun t => (g, t) : String → String × String) :=
      fun a b hab => by simpa using hab
    by_cases hg : g = f
    · subst hg
      rw [depsInsert_cons_eq g ts tl g ty rfl]
      by_cases hty : ty ∈ ts
      · rw [if_pos hty]
        simp only [pairsOf_cons, List.nodup_append]
        exact ⟨hp1, hp2, hp3⟩
      · rw [if_neg hty]
        simp only [pairsOf_cons, List.nodup_append]
        refine ⟨?_, hp2, ?_⟩
        · have hts : ts.Nodup := hp1.of_map
          have : (ts ++ [ty]).Nodup := by
            simp [List.nodup_append, hts, List.disjoint_singleton, hty]
          exact this.map hinj
        · intro a ha
          simp only [List.mem_map, List.mem_append, List.mem_singleton] at ha
          obtain ⟨t, _, rfl⟩ := ha
          intro hmem
          exact hkg (fst_mem_depKeys_of_mem_pairsOf tl (g, t) hmem)
    · rw [depsInsert_cons_ne g ts tl f ty hg]
      simp only [pairsOf_cons, List.nodup_append]
      refine ⟨hp1, ih hktl hp2, ?_⟩
      intro a ha
      simp only [List.mem_map] at ha
      obtain ⟨t, _, rfl⟩ := ha
      intro hmem
      rcases (mem_pairsOf_depsInsert tl f ty (g, t)).1 hmem with h | h
      · exact hkg (fst_mem_depKeys_of_mem_pairsOf tl (g, t) h)
      · exact hg (congrArg Prod.fst h)

/-- The pair list is as long as the value lists combined. -/
theorem length_pairsOf (d : List (String × List String)) :
    (pairsOf d).length = sumLens d := by
  induction d with
  | nil => rfl
  | cons hd tl ih => simp [pairsOf_cons, sumLens_cons, ih]

/-- Unfolding importPairs on the empty fragment list. -/
@[simp] theorem importPairs_nil (rp : String → String → String) (asp : String) :
    importPairs rp asp [] = [] := rfl

/-- Unfolding importPairs on a text fragment. -/
@[simp] theorem importPairs_text (rp : String → String → String) (asp s : String)
    (rest : List Frag) : importPairs rp asp (.text s :: rest) = importPairs rp asp rest := rfl

/-- Unfolding importPairs on a qualifier fragment. -/
@[simp] theorem importPairs_imp (rp : String → String → String) (asp f ty : String)
    (rest : List Frag) :
    importPairs rp asp (.imp f ty :: rest) =
      (if pathIsAbsolute f then rp asp f else f, ty) :: importPairs rp asp rest := rfl

/-- Unfolding scanFrags on the empty fragment list. -/
@[simp] theorem scanFrags_nil (rp : String → String → String) (asp : String)
    (deps : List (String × List String)) (out : String) :
    scanFrags rp asp [] deps out = (deps, out) := rfl

/-- Unfolding scanFrags on a text fragment. -/
@[simp] theorem scanFrags_text (rp : String → String → String) (asp s : String)
    (rest : List Frag) (deps : List (String × List String)) (out : String) :
    scanFrags rp asp (.text s :: rest) deps out = scanFrags rp asp rest deps (out ++ s) := rfl

/-- Unfolding scanFrags on a qualifier fragment. -/
@[simp] theorem scanFrags_imp (rp : String → String → String) (asp f ty : String)
    (rest : List Frag) (deps : List (String × List String)) (out : String) :
    scanFrags rp asp (.imp f ty :: rest) deps out =
      scanFrags rp asp rest
        (depsInsert deps (if pathIsAbsolute f then rp asp f else f) ty) (out ++ ty) := rfl

/-- The dependency map accumulated by the scan records exactly the pairs of the
initial map and of the scanned qualifiers. -/
theorem scanFrags_mem (rp : String → String → String) (asp : String) (frags : List Frag) :
    ∀ (deps : List (String × List String)) (out : String) (p : String × String),
      (p ∈ pairsOf (scanFrags rp asp frags deps out).1 ↔
        p ∈ pairsOf deps ∨ p ∈ importPairs rp asp frags) := by
  induction frags with
  | nil => intro deps out p; simp
  | cons fr rest ih =>
    intro deps out p
    cases fr with
    | text s => simpa using ih deps (out ++ s) p
    | imp f ty =>
      rw [scanFrags_imp, ih, mem_pairsOf_depsInsert, importPairs_imp, List.mem_cons]
      tauto

/-- The scan keeps both the keys and the recorded pairs duplicate-free. -/
theorem scanFrags_nodup (rp : String → String → String) (asp : String) (frags : List Frag) :
    ∀ (deps : List (String × List String)) (out : String),
      (depKeys deps).Nodup → (pairsOf deps).Nodup →
      (depKeys (scanFrags rp asp frags deps out).1).Nodup ∧
        (pairsOf (scanFrags rp asp frags deps out).1).Nodup := by
  induction frags with
  | nil => intro deps out hk hp; exact ⟨hk, hp⟩
  | cons fr rest ih =>
    intro deps out hk hp
    cases fr with
    | text s => exact ih deps (out ++ s) hk hp
    | imp f ty =>
      rw [scanFrags_imp]
      exact ih _ _ (nodup_depKeys_depsInsert _ _ _ hk) (nodup_pairsOf_depsInsert _ _ _ hk hp)

/-- C1: a successful type resolution yields a resolved type with no embedded
qualifier text, and a dependency map whose value-list lengths sum to the
number of distinct (file, type) pairs denoted by the qualifiers of the raw
type. -/
theorem resolveTypeDependencies_spec (relPath : String → String → String)
    (frags : List Frag) (rf asp : String) (r : ResolvedTypeDeps)
    (h : resolveTypeDependencies relPath frags rf asp = .ok r) :
    strIncludes r.resolvedType "import(" = false ∧
    sumLens r.dependencies = (importPairs relPath asp frags).toFinset.card := by
  unfold resolveTypeDependencies at h
  split at h
  · cases h
  · split at h
    · cases h
    · split at h
      · cases h
      · rename_i hinc _
        cases h
        constructor
        · simpa using hinc
        · have hm := scanFrags_mem relPath asp frags [] ""
          have hnd := (scanFrags_nodup relPath asp frags [] "" (by simp) (by simp)).2
          calc sumLens (scanFrags relPath asp frags [] "").1
              = (pairsOf (scanFrags relPath asp frags [] "").1).length :=
                (length_pairsOf _).symm
            _ = (pairsOf (scanFrags relPath asp frags [] "").1).toFinset.card :=
                (List.toFinset_card_of_nodup hnd).symm
            _ = (importPairs relPath asp frags).toFinset.card := by
                congr 1
                ext p
                simp [List.mem_toFinset, hm p]

/-- Witness for C1 at a raw type holding the same qualifier twice. -/
theorem resolveTypeDependencies_spec_witness :
    strIncludes cFragsRTD.resolvedType "import(" = false ∧
    sumLens cFragsRTD.dependencies = (importPairs relPathId "" cFrags).toFinset.card :=
  resolveTypeDependencies_spec relPathId cFrags "api/user.controller.ts" "" cFragsRTD (by decide)

/-- Unfolding truthyKeys on a head argument carrying a truthy key. -/
theorem truthyKeys_cons_some (a : DecoratedArg) (args : List DecoratedArg) (k : String)
    (h : truthyKeyVal a.argParamKey = some k) :
    truthyKeys (a :: args) = k :: truthyKeys args := by
  simp [truthyKeys, List.filterMap_cons, h]

/-- Unfolding truthyKeys on a keyless head argument. -/
theorem truthyKeys_cons_none (a : DecoratedArg) (args : List DecoratedArg)
    (h : truthyKeyVal a.argParamKey = none) :
    truthyKeys (a :: args) = truthyKeys args := by
  simp [truthyKeys, List.filterMap_cons, h]

/-- Unfolding genericCount on a head argument carrying a truthy key. -/
theorem genericCount_cons_some (a : DecoratedArg) (args : List DecoratedArg) (k : String)
    (h : truthyKeyVal a.argParamKey = some k) :
    genericCount (a :: args) = genericCount args := by
  simp [genericCount, List.filter_cons, h]

/-- Unfolding genericCount on a keyless head argument. -/
theorem genericCount_cons_none (a : DecoratedArg) (args : List DecoratedArg)
    (h : truthyKeyVal a.argParamKey = none) :
    genericCount (a :: args) = genericCount args + 1 := by
  simp [genericCount, List.filter_cons, h, Nat.add_comm]

/-- A lookup succeeds exactly when the key occurs in the map. -/
theorem lookup_isSome_iff (m : List (String × ResolvedTypeDeps)) (k : String) :
    ((m.lookup k).isSome = true) ↔ k ∈ m.map Prod.fst := by
  induction m with
  | nil => simp [List.lookup]
  | cons hd tl ih =>
    obtain ⟨a, b⟩ := hd
    simp only [List.lookup, List.map_cons, List.mem_cons]
    by_cases hak : k = a
    · simp [hak]
    · have hka : (k == a) = false := beq_eq_false_iff_ne.2 hak
      simp only [hka]
      simp [ih, hak]

/-- For a key that is not an inherited object property, the truthy-map test is
plain key membership. -/
theorem jsMapHas_eq (m : List (String × ResolvedTypeDeps)) (k : String)
    (h : k ∉ objectProtoMembers) : (jsMapHas m k = true) ↔ k ∈ m.map Prod.fst := by
  simp [jsMapHas, h, lookup_isSome_iff]

/-- Success of the merge loop, characterized over the remaining arguments:
the truthy keys must be new and mutually distinct, and at most one generic
slot (argument or carried state) may exist. -/
theorem mergeLoop_ok_iff (relPath : String → String → String) (args : List DecoratedArg) :
    ∀ (g : Option ResolvedTypeDeps) (m : List (String × ResolvedTypeDeps)),
      (∀ a ∈ args, isOkE (resolveArg relPath a) = true) →
      (∀ a ∈ args, ∀ k, truthyKeyVal a.argParamKey = some k → k ∉ objectProtoMembers) →
      (isOkE (mergeLoop relPath args g m) = true ↔
        ((truthyKeys args).Nodup ∧
          (∀ k ∈ truthyKeys args, k ∉ m.map Prod.fst) ∧
          genericCount args + gWeight g ≤ 1)) := by
  induction args with
  | nil =>
    intro g m _ _
    constructor
    · intro _
      refine ⟨by simp [truthyKeys], by simp [truthyKeys], ?_⟩
      have hgc : genericCount [] = 0 := rfl
      rw [hgc]
      cases g <;> simp [gWeight]
    · intro _
      simp [mergeLoop, isOkE]
  | cons a rest ih =>
    intro g m hres hpro
    have hresa := hres a (List.mem_cons_self a rest)
    obtain ⟨t, hta⟩ : ∃ t, resolveArg relPath a = .ok t := by
      cases hq : resolveArg relPath a with
      | error e => rw [hq] at hresa; simp [isOkE] at hresa
      | ok t => exact ⟨t, rfl⟩
    have hres' : ∀ x ∈ rest, isOkE (resolveArg relPath x) = true :=
      fun x hx => hres x (List.mem_cons_of_mem _ hx)
    have hpro' : ∀ x ∈ rest, ∀ k, truthyKeyVal x.argParamKey = some k → k ∉ objectProtoMembers :=
      fun x hx => hpro x (List.mem_cons_of_mem _ hx)
    cases hk : truthyKeyVal a.argParamKey with
    | some k =>
      have hkp : k ∉ objectProtoMembers := hpro a (List.mem_cons_self a rest) k hk
      simp only [mergeLoop, hta, hk]
      rw [truthyKeys_cons_some a rest k hk, genericCount_cons_some a rest k hk]
      by_cases hhas : jsMapHas m k = true
      · simp only [hhas, if_true, isOkE]
        constructor
        · intro hfalse; exact absurd hfalse (by simp)
        · rintro ⟨hnd, hmk, hgc⟩
          exfalso
          exact (hmk k (List.mem_cons_self _ _)) ((jsMapHas_eq m k hkp).1 hhas)
      · have hhas' : jsMapHas m k = false := by
          cases hv : jsMapHas m k
          · rfl
          · exact absurd hv hhas
        have hknot : k ∉ m.map Prod.fst := fun hin => hhas ((jsMapHas_eq m k hkp).2 hin)
        simp only [hhas', Bool.false_eq_true, if_false]
        rw [ih g (m ++ [(k, t)]) hres' hpro']
        constructor
        · rintro ⟨hnd, hmk, hgc⟩
          refine ⟨List.nodup_cons.2 ⟨?_, hnd⟩, ?_, hgc⟩
          · intro hkin
            exact (hmk k hkin) (by simp)
          · intro x hx
            rcases List.mem_cons.1 hx with rfl | hx'
            · exact hknot
            · intro hxin
              exact (hmk x hx') (by simp [hxin])
        · rintro ⟨hnd2, hmk, hgc⟩
          have hkn : k ∉ truthyKeys rest := (List.nodup_cons.1 hnd2).1
          have hnd : (truthyKeys rest).Nodup := (List.nodup_cons.1 hnd2).2
          refine ⟨hnd, ?_, hgc⟩
          intro x hx hmem
          rw [List.map_append] at hmem
          rcases List.mem_append.1 hmem with hxin | hxk
          · exact (hmk x (List.mem_cons_of_mem _ hx)) hxin
          · have hxe : x = k := by simpa using hxk
            subst hxe
            exact hkn hx
    | none =>
      simp only [mergeLoop, hta, hk]
      rw [truthyKeys_cons_none a rest hk, genericCount_cons_none a rest hk]
      cases g with
      | some gt =>
        simp only [Option.isSome_some, if_true, isOkE]
        constructor
        · intro hfalse; exact absurd hfalse (by simp)
        · rintro ⟨_, _, hgc⟩
          simp only [gWeight] at hgc
          omega
      | none =>
        simp only [Option.isSome_none, Bool.false_eq_true, if_false]
        rw [ih (some t) m hres' hpro']
        simp only [gWeight]

/-- Shape of a successful merge-loop result: the accumulated keys extend the
initial ones by the truthy keys in order, and the generic slot is present
exactly when it was carried in or some keyless argument occurred. -/
theorem mergeLoop_ok_post (relPath : String → String → String) (args : List DecoratedArg) :
    ∀ (g : Option ResolvedTypeDeps) (m : List (String × ResolvedTypeDeps))
      (g' : Option ResolvedTypeDeps) (m' : List (String × ResolvedTypeDeps)),
      mergeLoop relPath args g m = .ok (g', m') →
      m'.map Prod.fst = m.map Prod.fst ++ truthyKeys args ∧
      g'.isSome = (g.isSome || decide (0 < genericCount args)) := by
  induction args with
  | nil =>
    intro g m g' m' h
    simp only [mergeLoop] at h
    cases h
    constructor
    · simp [truthyKeys]
    · simp [genericCount]
  | cons a rest ih =>
    intro g m g' m' h
    simp only [mergeLoop] at h
    cases hta : resolveArg relPath a with
    | error e => rw [hta] at h; cases h
    | ok t =>
      rw [hta] at h
      cases hk : truthyKeyVal a.argParamKey with
      | some k =>
        rw [hk] at h
        by_cases hhas : jsMapHas m k = true
        · simp only [hhas, if_true] at h
          cases h
        · have hhas' : jsMapHas m k = false := by
            cases hv : jsMapHas m k
            · rfl
            · exact absurd hv hhas
          simp only [hhas', Bool.false_eq_true, if_false] at h
          obtain ⟨h1, h2⟩ := ih g (m ++ [(k, t)]) g' m' h
          constructor
          · rw [h1, truthyKeys_cons_some a rest k hk]
            simp [List.map_append]
          · rw [h2, genericCount_cons_some a rest k hk]
      | none =>
        rw [hk] at h
        cases g with
        | some gt =>
          simp only [Option.isSome_some, if_true] at h
          cases h
        | none =>
          simp only [Option.isSome_none, Bool.false_eq_true, if_false] at h
          obtain ⟨h1, h2⟩ := ih (some t) m g' m' h
          constructor
          · rw [h1, truthyKeys_cons_none a rest hk]
          · rw [h2, genericCount_cons_none a rest hk]
            simp

/-- Success of mergeDecoratedArgs, characterized: all truthy keys distinct,
and either no keyless argument, or a single keyless argument and no keyed
one. -/
theorem mergeDecoratedArgs_ok_iff (relPath : String → String → String)
    (args : List DecoratedArg)
    (hres : ∀ a ∈ args, isOkE (resolveArg relPath a) = true)
    (hpro : ∀ a ∈ args, ∀ k, truthyKeyVal a.argParamKey = some k → k ∉ objectProtoMembers) :
    (isOkE (mergeDecoratedArgs relPath args) = true ↔
      ((truthyKeys args).Nodup ∧
        (genericCount args = 0 ∨ (genericCount args = 1 ∧ truthyKeys args = [])))) := by
  unfold mergeDecoratedArgs
  cases hml : mergeLoop relPath args none [] with
  | error e =>
    have hl := mergeLoop_ok_iff relPath args none [] hres hpro
    rw [hml] at hl
    simp only [isOkE] at hl ⊢
    constructor
    · intro hfalse; exact absurd hfalse (by simp)
    · rintro ⟨hnd, hcase⟩
      exfalso
      have hply : (truthyKeys args).Nodup ∧
          (∀ k ∈ truthyKeys args, k ∉ List.map Prod.fst ([] : List (String × ResolvedTypeDeps))) ∧
          genericCount args + gWeight (none : Option ResolvedTypeDeps) ≤ 1 := by
        refine ⟨hnd, by simp, ?_⟩
        simp only [gWeight]
        rcases hcase with h0 | ⟨h1, _⟩ <;> omega
      have := hl.2 hply
      simp at this
    | ok r =>
      obtain ⟨g', m'⟩ := r
      have hpost := mergeLoop_ok_post relPath args none [] g' m' hml
      have hl := mergeLoop_ok_iff relPath args none [] hres hpro
      rw [hml] at hl
      have hloop := hl.1 (by rfl)
      obtain ⟨hnd, _, hgc⟩ := hloop
      obtain ⟨hkeys, hg⟩ := hpost
      simp only [List.map_nil, List.nil_append] at hkeys
      have hlen : m'.length = (truthyKeys args).length := by
        rw [← hkeys]; simp
      simp only [gWeight, Nat.add_zero] at hgc
      by_cases hm0 : 0 < m'.length
      · by_cases hg' : g'.isSome = true
        · have hcond : (g'.isSome && decide (0 < m'.length)) = true := by
            simp [hg', hm0]
          simp only [hcond, if_true, isOkE]
          have hgcpos : 0 < genericCount args :=
            of_decide_eq_true (hg.symm.trans hg')
          have hkne : truthyKeys args ≠ [] := by
            intro hempty
            rw [hempty] at hlen
            simp only [List.length_nil] at hlen
            omega
          constructor
          · intro hfalse; exact absurd hfalse (by simp)
          · rintro ⟨_, hcase | hcase⟩
            · exfalso; omega
            · exact absurd hcase.2 hkne
        · have hgf : g'.isSome = false := by
            cases hv : g'.isSome
            · rfl
            · exact absurd hv hg'
          have hcond : (g'.isSome && decide (0 < m'.length)) = false := by simp [hgf]
          simp only [hcond, Bool.false_eq_true, if_false]
          rw [if_pos hm0]
          simp only [isOkE]
          have hgc0 : genericCount args = 0 := by
            have hd : decide (0 < genericCount args) = false := hg.symm.trans hgf
            have := of_decide_eq_false hd
            omega
          constructor
          · intro _; exact ⟨hnd, Or.inl hgc0⟩
          · intro _; trivial
      · have hcond : (g'.isSome && decide (0 < m'.length)) = false := by simp [hm0]
        simp only [hcond, Bool.false_eq_true, if_false]
        rw [if_neg hm0]
        have hknil : truthyKeys args = [] := by
          have hz : (truthyKeys args).length = 0 := by omega
          exact List.length_eq_zero.1 hz
        constructor
        · intro _
          refine ⟨hnd, ?_⟩
          rcases Nat.lt_or_ge (genericCount args) 1 with hlt | hge
          · exact Or.inl (by omega)
          · exact Or.inr ⟨by omega, hknil⟩
        · intro _
          cases g' <;> rfl

/-- C5 amended: merging the decorated arguments of one kind fails exactly
when two arguments share the same explicit key, or at least two arguments are
effectively keyless (no key, or an empty-string key, which JavaScript
truthiness treats as missing), or a keyed and a keyless argument are mixed;
otherwise merging succeeds. -/
theorem mergeDecoratedArgs_fail_iff (relPath : String → String → String)
    (args : List DecoratedArg)
    (hres : ∀ a ∈ args, isOkE (resolveArg relPath a) = true)
    (hpro : ∀ a ∈ args, ∀ k, truthyKeyVal a.argParamKey = some k → k ∉ objectProtoMembers) :
    (isOkE (mergeDecoratedArgs relPath args) = false ↔
      (¬ (truthyKeys args).Nodup ∨ 2 ≤ genericCount args ∨
        (truthyKeys args ≠ [] ∧ 1 ≤ genericCount args))) := by
  have h := mergeDecoratedArgs_ok_iff relPath args hres hpro
  constructor
  · intro hf
    by_contra hcon
    push_neg at hcon
    obtain ⟨hnd, hlt, hmix⟩ := hcon
    have hok : isOkE (mergeDecoratedArgs relPath args) = true := by
      rw [h]
      by_cases hknil : truthyKeys args = []
      · rcases Nat.lt_or_ge (genericCount args) 1 with h0 | h1
        · exact ⟨hnd, Or.inl (by omega)⟩
        · exact ⟨hnd, Or.inr ⟨by omega, hknil⟩⟩
      · have hg1 := hmix hknil
        exact ⟨hnd, Or.inl (by omega)⟩
    rw [hok] at hf
    cases hf
  · intro hcond
    cases hv : isOkE (mergeDecoratedArgs relPath args)
    · rfl
    · exfalso
      obtain ⟨hnd, hcase⟩ := h.1 hv
      rcases hcond with hc | hc | hc
      · exact hc hnd
      · rcases hcase with h0 | ⟨h1, _⟩ <;> omega
      · rcases hcase with h0 | ⟨h1, hk⟩
        · have := hc.2
          omega
        · exact hc.1 hk

/-- Counterexample to C5 as stated: two keyless arguments of the same kind
make merging fail with the used-twice error, although no two arguments share
an explicit key and no keyed argument is mixed with a keyless one. -/
theorem mergeDecoratedArgs_two_keyless_counterexample :
    mergeDecoratedArgs relPathId [cArgKeyless, cArgKeyless2] =
      .error "Param() used twice in controller method" ∧
    cArgKeyless.argParamKey = none ∧ cArgKeyless2.argParamKey = none := by
  refine ⟨by decide, rfl, rfl⟩

/-- Witness for C5 amended at the pair of keyless arguments. -/
theorem mergeDecoratedArgs_fail_iff_witness :
    isOkE (mergeDecoratedArgs relPathId [cArgKeyless, cArgKeyless2]) = false := by
  have h := mergeDecoratedArgs_fail_iff relPathId [cArgKeyless, cArgKeyless2]
    (by decide)
    (by
      intro a ha k hk
      rcases List.mem_cons.1 ha with rfl | ha2
      · have hz : truthyKeyVal cArgKeyless.argParamKey = none := rfl
        rw [hz] at hk
        cases hk
      · rcases List.mem_cons.1 ha2 with rfl | ha3
        · have hz : truthyKeyVal cArgKeyless2.argParamKey = none := rfl
          rw [hz] at hk
          cases hk
        · cases ha3)
  exact h.2 (by decide)

/-- An all-keyed run of the merge loop appends each key with its resolved
type, in order. -/
theorem mergeLoop_all_keyed (relPath : String → String → String) (args : List DecoratedArg) :
    ∀ (g : Option ResolvedTypeDeps) (m : List (String × ResolvedTypeDeps)),
      (∀ a ∈ args, ∃ k, truthyKeyVal a.argParamKey = some k ∧ k ∉ objectProtoMembers) →
      (∀ a ∈ args, isOkE (resolveArg relPath a) = true) →
      (truthyKeys args).Nodup →
      (∀ k ∈ truthyKeys args, k ∉ m.map Prod.fst) →
      mergeLoop relPath args g m =
        .ok (g, m ++ args.map (fun a => (keyD a, resD relPath a))) := by
  induction args with
  | nil =>
    intro g m _ _ _ _
    simp [mergeLoop]
  | cons a rest ih =>
    intro g m hkeys hres hnd hfresh
    obtain ⟨k, hk, hkp⟩ := hkeys a (List.mem_cons_self a rest)
    have hresa := hres a (List.mem_cons_self a rest)
    obtain ⟨t, hta⟩ : ∃ t, resolveArg relPath a = .ok t := by
      cases hq : resolveArg relPath a with
      | error e => rw [hq] at hresa; simp [isOkE] at hresa
      | ok t => exact ⟨t, rfl⟩
    have hkD : keyD a = k := by simp [keyD, hk]
    have htD : resD relPath a = t := by simp [resD, hta]
    rw [truthyKeys_cons_some a rest k hk] at hnd hfresh
    have hkfresh : k ∉ m.map Prod.fst := hfresh k (List.mem_cons_self _ _)
    have hhas' : jsMapHas m k = false := by
      cases hv : jsMapHas m k
      · rfl
      · exact absurd ((jsMapHas_eq m k hkp).1 hv) hkfresh
    have hfresh' : ∀ x ∈ truthyKeys rest, x ∉ (m ++ [(k, t)]).map Prod.fst := by
      intro x hx
      rw [List.map_append]
      intro hmem
      rcases List.mem_append.1 hmem with h1 | h2
      · exact (hfresh x (List.mem_cons_of_mem _ hx)) h1
      · have hxe : x = k := by simpa using h2
        subst hxe
        exact (List.nodup_cons.1 hnd).1 hx
    have hrec := ih g (m ++ [(k, t)])
      (fun x hx => hkeys x (List.mem_cons_of_mem _ hx))
      (fun x hx => hres x (List.mem_cons_of_mem _ hx))
      (List.nodup_cons.1 hnd).2
      hfresh'
    simp only [mergeLoop, hta, hk, hhas', Bool.false_eq_true, if_false]
    rw [hrec, List.map_cons, hkD, htD, List.append_assoc]
    rfl

/-- C6 amended: the merged slot is null for no arguments, the single
pass-through resolved type for exactly one keyless argument, and the keyed
map of each key with its resolved type when every argument carries a
non-empty key (an empty-string key is treated as no key); the result type
makes a slot exclusively one of null, single or keyed. -/
theorem mergeDecoratedArgs_slots (relPath : String → String → String) :
    (mergeDecoratedArgs relPath [] = .ok .null) ∧
    (∀ (a : DecoratedArg) (t : ResolvedTypeDeps), truthyKeyVal a.argParamKey = none →
      resolveArg relPath a = .ok t →
      mergeDecoratedArgs relPath [a] = .ok (.single t)) ∧
    (∀ args : List DecoratedArg, args ≠ [] →
      (∀ a ∈ args, ∃ k, truthyKeyVal a.argParamKey = some k ∧ k ∉ objectProtoMembers) →
      (truthyKeys args).Nodup →
      (∀ a ∈ args, isOkE (resolveArg relPath a) = true) →
      mergeDecoratedArgs relPath args =
        .ok (.keyed (args.map (fun a => (keyD a, resD relPath a))))) := by
  refine ⟨rfl, ?_, ?_⟩
  · intro a t hk hta
    unfold mergeDecoratedArgs
    simp only [mergeLoop, hta, hk, Option.isSome_none, Bool.false_eq_true, if_false]
    rfl
  · intro args hne hkeys hnd hres
    have hml := mergeLoop_all_keyed relPath args none [] hkeys hres hnd (by simp)
    unfold mergeDecoratedArgs
    rw [hml]
    simp only [List.nil_append]
    have hlen : 0 < (args.map (fun a => (keyD a, resD relPath a))).length := by
      rcases args with _ | ⟨a, rest⟩
      · exact absurd rfl hne
      · simp
    simp only [Option.isSome_none, Bool.false_and, Bool.false_eq_true, if_false]
    rw [if_pos hlen]

/-- Counterexample to C6 as stated: an argument carrying the explicit key ""
yields a pass-through single slot, not a keyed map, because JavaScript
truthiness treats the empty-string key as missing. -/
theorem mergeDecoratedArgs_emptyKey_counterexample :
    mergeDecoratedArgs relPathId [cArgEmptyKey] = .ok (.single cIdObjRTD) ∧
    cArgEmptyKey.argParamKey = some "" := by
  refine ⟨by decide, rfl⟩

/-- Witness for C6 amended at one keyed argument. -/
theorem mergeDecoratedArgs_slots_witness :
    mergeDecoratedArgs relPathId [cArgKeyedId] = .ok (.keyed [("id", cStrRTD)]) := by
  have h := (mergeDecoratedArgs_slots relPathId).2.2 [cArgKeyedId]
    (by decide)
    (by
      intro a ha
      rcases List.mem_cons.1 ha with rfl | ha2
      · exact ⟨"id", rfl, by decide⟩
      · cases ha2)
    (by decide)
    (by decide)
  exact h.trans (by decide)

end NestSdkGen
